import Mathlib

/-!
Verification of the APA (Aggregate Peak Analysis) slice-file engine.

The development is a shallow embedding of the record-processing engine in
src/apa.h, src/apa.cpp and src/helper/coverage_vectors.h:

* machine integers (int16, int32, long) are modeled as unbounded integers;
  every C++ integer division is the truncating division Int.tdiv;
* float values are modeled as rationals; the special values NaN and the two
  infinities, which the stream may carry, are modeled by the inductive type
  FloatVal;
* hash maps and hash sets are modeled as total functions (characteristic
  functions for sets, Option-valued functions for maps);
* the function that throws (the sparse coverage add) returns Except.
-/

namespace APA

/-- C++ truncating integer division, the semantics of the `/` operator on
int32 and int64 operands. -/
def cppDiv (a b : ℤ) : ℤ := Int.tdiv a b

/-- The BEDPE fields consumed by the engine (struct BedpeEntry,
bedpe_builder.h): two chromosome names and two genomic intervals. The name,
score, strand and color fields are never read by the engine and are omitted. -/
structure BedpeEntry where
  chrom1 : String
  start1 : ℤ
  end1 : ℤ
  chrom2 : String
  start2 : ℤ
  end2 : ℤ
deriving DecidableEq, Repr

/-- struct LoopInfo (apa.h): the copy of a BedpeEntry stored in a LoopIndex. -/
structure LoopInfo where
  chrom1 : String
  chrom2 : String
  start1 : ℤ
  end1 : ℤ
  start2 : ℤ
  end2 : ℤ
deriving DecidableEq, Repr

/-- The LoopInfo constructor taking a BedpeEntry (apa.h lines 175-178). -/
def LoopInfo.ofBedpe (e : BedpeEntry) : LoopInfo :=
  ⟨e.chrom1, e.chrom2, e.start1, e.end1, e.start2, e.end2⟩

/-- struct ChromPair (apa.h): the key of the per-chromosome-pair loop map. -/
structure ChromPair where
  chrom1 : String
  chrom2 : String
deriving DecidableEq, Repr

/-- detail::DEFAULT_CHROM_SIZES (apa.h lines 26-35). -/
def DEFAULT_CHROM_SIZES : List (String × ℤ) :=
  [("chr1", 248956422), ("chr2", 242193529), ("chr3", 198295559),
   ("chr4", 190214555), ("chr5", 181538259), ("chr6", 170805979),
   ("chr7", 159345973), ("chrX", 156040895), ("chr8", 145138636),
   ("chr9", 138394717), ("chr11", 135086622), ("chr10", 133797422),
   ("chr12", 133275309), ("chr13", 114364328), ("chr14", 107043718),
   ("chr15", 101991189), ("chr16", 90338345), ("chr17", 83257441),
   ("chr18", 80373285), ("chr20", 64444167), ("chr19", 58617616),
   ("chrY", 57227415), ("chr22", 50818468), ("chr21", 46709983)]

/-- detail::getChromBins (apa.h lines 38-44): number of bins of a chromosome
at the given resolution, with a fixed fallback for unknown names. -/
def getChromBins (chrom : String) (resolution : ℤ) : ℤ :=
  match DEFAULT_CHROM_SIZES.lookup chrom with
  | some n => cppDiv n resolution + 1
  | none => cppDiv 20000000 resolution

/-- The loop-center bin used by RegionsOfInterest construction (apa.h lines
216-223) and by the exact window test of the streaming loop (apa.cpp lines
253-260): binStart = start/res, binEnd = end/res + 1, center =
(binStart + binEnd)/2, every division truncating. -/
def centerBin (s e res : ℤ) : ℤ :=
  cppDiv (cppDiv s res + (cppDiv e res + 1)) 2

/-- The loop-center bin used by LoopIndex construction (apa.h line 256) and
by the rowSums/colSums normalization stage (apa.cpp lines 290-291):
((start + end)/2)/res, every division truncating. This is a different
formula from centerBin. -/
def midBin (s e res : ℤ) : ℤ :=
  cppDiv (cppDiv (s + e) 2) res

/-- One insertion step of RegionsOfInterest construction (apa.h lines
226-231): for one entry, mark every bin of [center - win, center + win]
that is nonnegative in the per-chromosome set; sets are modeled as
characteristic functions, so marking is a functional update. -/
def markStep (chromOf : BedpeEntry → String) (centerOf : BedpeEntry → ℤ) (win : ℤ)
    (m : String → ℤ → Bool) (e : BedpeEntry) : String → ℤ → Bool :=
  fun c b =>
    if c = chromOf e ∧ centerOf e - win ≤ b ∧ b ≤ centerOf e + win ∧ 0 ≤ b then true
    else m c b

/-- The per-chromosome bin sets accumulated over all entries (apa.h lines
214-232), starting from everywhere-empty sets. -/
def markBins (chromOf : BedpeEntry → String) (centerOf : BedpeEntry → ℤ) (win : ℤ)
    (entries : List BedpeEntry) : String → ℤ → Bool :=
  entries.foldl (markStep chromOf centerOf win) (fun _ _ => false)

/-- struct RegionsOfInterest (apa.h lines 197-246): the unordered sets of
bins are modeled by their characteristic functions, so a chromosome absent
from the map and a chromosome whose set does not hold the bin both answer
false, exactly as find-plus-count does in the source. -/
structure RegionsOfInterest where
  rowIndices : String → ℤ → Bool
  colIndices : String → ℤ → Bool
  resolution : ℤ
  window : ℤ
  isInter : Bool

/-- The RegionsOfInterest constructor (apa.h lines 204-233). -/
def RegionsOfInterest.build (entries : List BedpeEntry) (res win : ℤ) (inter : Bool) :
    RegionsOfInterest :=
  { rowIndices := markBins (fun e => e.chrom1) (fun e => centerBin e.start1 e.end1 res) win entries
    colIndices := markBins (fun e => e.chrom2) (fun e => centerBin e.start2 e.end2 res) win entries
    resolution := res
    window := win
    isInter := inter }

/-- RegionsOfInterest::probablyContainsRecord (apa.h lines 235-245). -/
def RegionsOfInterest.probablyContainsRecord (roi : RegionsOfInterest)
    (chr1 chr2 : String) (binX binY : ℤ) : Bool :=
  if roi.isInter = true ∧ chr1 = chr2 then false
  else if roi.isInter = false ∧ chr1 ≠ chr2 then false
  else roi.rowIndices chr1 binX && roi.colIndices chr2 binY

/-- struct LoopIndex (apa.h lines 248-282): chromosome-pair key to bucket
number to list of stored loops. The two-level std::map is modeled as a total
function whose default value is the empty list (a missing key and an empty
bucket are indistinguishable to the only reader, getNearbyLoops). -/
structure LoopIndex where
  loops : ChromPair → ℤ → List LoopInfo
  resolution : ℤ

/-- LoopIndex::BIN_GROUP_SIZE (apa.h line 249): a fixed constant, not derived
from the window. -/
def LoopIndex.BIN_GROUP_SIZE : ℤ := 1000

/-- One emplace step of LoopIndex construction (apa.h lines 254-259): the
entry is appended to the bucket keyed by its chromosome pair and by
midBin(start1, end1)/BIN_GROUP_SIZE; only the axis-1 midpoint is bucketed. -/
def loopIndexStep (res : ℤ) (m : ChromPair → ℤ → List LoopInfo) (loop : BedpeEntry) :
    ChromPair → ℤ → List LoopInfo :=
  fun p b =>
    if p = ChromPair.mk loop.chrom1 loop.chrom2 ∧
        b = cppDiv (midBin loop.start1 loop.end1 res) LoopIndex.BIN_GROUP_SIZE then
      m p b ++ [LoopInfo.ofBedpe loop]
    else m p b

/-- The LoopIndex constructor (apa.h lines 253-260). -/
def LoopIndex.build (entries : List BedpeEntry) (res : ℤ) : LoopIndex :=
  { loops := entries.foldl (loopIndexStep res) (fun _ _ => [])
    resolution := res }

/-- LoopIndex::getNearbyLoops (apa.h lines 262-281): gathers the buckets
binX/BIN_GROUP_SIZE - 1 .. + 1 of the chromosome pair, in ascending bucket
order; the query never looks at the second axis. The C++ returns pointers
into the index; the model returns the loop values. -/
def LoopIndex.getNearbyLoops (idx : LoopIndex) (chr1 chr2 : String) (binX : ℤ) :
    List LoopInfo :=
  let cp : ChromPair := ⟨chr1, chr2⟩
  let g := cppDiv binX LoopIndex.BIN_GROUP_SIZE
  idx.loops cp (g - 1) ++ idx.loops cp g ++ idx.loops cp (g + 1)

/-- struct APAMatrix (apa.h lines 285-343, apa_matrix.cpp): the width-by-width
vector of vectors is modeled as a total function together with the width;
the code never reads a cell outside [0, width) on either axis. -/
structure APAMatrix where
  width : ℤ
  matrix : ℤ → ℤ → ℚ

/-- The APAMatrix constructor (apa.h lines 289-294): zero-filled square
matrix. The positivity check on the size is enforced by the caller
(processSliceFile rejects window_size <= 0 before building matrices). -/
def APAMatrix.init (size : ℤ) : APAMatrix := ⟨size, fun _ _ => 0⟩

/-- APAMatrix::add (apa.h lines 296-300, apa_matrix.cpp lines 13-17):
bounds-checked accumulate; out-of-range coordinates are silently ignored. -/
def APAMatrix.add (m : APAMatrix) (relX relY : ℤ) (value : ℚ) : APAMatrix :=
  if 0 ≤ relX ∧ relX < m.width ∧ 0 ≤ relY ∧ relY < m.width then
    { m with matrix := fun x y =>
        if x = relX ∧ y = relY then m.matrix x y + value else m.matrix x y }
  else m

/-- APAMatrix::getAverage (apa.h lines 303-313): mean of the strictly
positive entries, 1 when there is none. -/
def getAverage (vec : List ℚ) : ℚ :=
  let positives := vec.filter (fun v => decide (0 < v))
  if 0 < positives.length then positives.sum / positives.length else 1

/-- APAMatrix::scaleByAverage (apa.h lines 316-323). -/
def scaleByAverage (vec : List ℚ) : List ℚ :=
  let avg := getAverage vec
  if 0 < avg then vec.map (fun v => v / avg) else vec

/-- APAMatrix::normalize (apa.h lines 326-340): replaces the matrix by
cell/(rowSums[r]*colSums[c]) where the product is positive, 0 elsewhere.
Cells outside [0, width) do not exist in the C++ vector; the model sends
them to 0. -/
def APAMatrix.normalize (m : APAMatrix) (rowSums colSums : List ℚ) : APAMatrix :=
  { m with matrix := fun r c =>
      if 0 ≤ r ∧ r < m.width ∧ 0 ≤ c ∧ c < m.width then
        let normVal := rowSums.getD r.toNat 0 * colSums.getD c.toNat 0
        if 0 < normVal then m.matrix r c / normVal else 0
      else 0 }

/-- struct CoverageVectors of apa.h (lines 346-377), the dense per-chromosome
variant used by processSliceFile. A missing chromosome is none; a created
chromosome holds a vector conceptually sized getChromBins, modeled as a total
function (creation and resizing fill with zeros). A write outside the vector
size is undefined behavior in the C++ and is modeled as a plain functional
update. -/
structure CoverageVectors where
  resolution : ℤ
  vectors : String → Option (ℤ → ℚ)

/-- The CoverageVectors constructor (apa.h line 350). -/
def CoverageVectors.init (res : ℤ) : CoverageVectors := ⟨res, fun _ => none⟩

/-- CoverageVectors::add of apa.h (lines 352-362): creates the per-chromosome
vector if absent, then accumulates at the bin; note the dense variant applies
no check on the sign of the value. -/
def CoverageVectors.add (cv : CoverageVectors) (chrom : String) (bin : ℤ) (value : ℚ) :
    CoverageVectors :=
  let vec := (cv.vectors chrom).getD (fun _ => 0)
  { cv with vectors := fun c =>
      if c = chrom then some (fun b => if b = bin then vec b + value else vec b)
      else cv.vectors c }

/-- CoverageVectors::addLocalSums of apa.h (lines 364-376): sums[i] +=
vector[binStart + i] for the bins that exist; after any add the vector size
is getChromBins(chrom, resolution), which bounds the readable range. -/
def CoverageVectors.addLocalSums (cv : CoverageVectors) (sums : List ℚ) (chrom : String)
    (binStart : ℤ) : List ℚ :=
  match cv.vectors chrom with
  | none => sums
  | some vec =>
    sums.mapIdx (fun i s =>
      let bin := binStart + (i : ℤ)
      if 0 ≤ bin ∧ bin < getChromBins chrom cv.resolution then s + vec bin else s)

namespace helper

/-- The sparse CoverageVectors class of helper/coverage_vectors.h: chromosome
key to sparse bin map. The two-level unordered_map is modeled as a curried
function to Option: none is an absent bin entry, and the outer and inner map
levels are flattened (the engine never distinguishes an absent chromosome
from a chromosome with an empty bin map). -/
structure CoverageVectors where
  resolution : ℤ
  vectors : ℤ → ℤ → Option ℚ

/-- MAX_VECTOR_SIZE (helper/coverage_vectors.h line 24). -/
def MAX_VECTOR_SIZE : ℤ := 30000000

/-- CoverageVectors::add of helper/coverage_vectors.h (lines 22-32): a
negative bin returns silently; a bin at or beyond MAX_VECTOR_SIZE throws
(modeled as Except.error) before the value is examined; only a positive
value stores, creating the entry with default 0 then incrementing. -/
def CoverageVectors.add (cv : CoverageVectors) (chrKey bin : ℤ) (value : ℚ) :
    Except String CoverageVectors :=
  if bin < 0 then Except.ok cv
  else if MAX_VECTOR_SIZE ≤ bin then
    Except.error ("Bin index exceeds maximum allowed size")
  else if 0 < value then
    Except.ok { cv with vectors := (fun k b =>
        if k = chrKey ∧ b = bin then some ((cv.vectors chrKey bin).getD 0 + value)
        else cv.vectors k b) }
  else Except.ok cv

end helper

/-- The float value carried by a contact record. The stream may hold NaN or
an infinity; finite values are modeled as rationals. -/
inductive FloatVal where
  | nan : FloatVal
  | posInf : FloatVal
  | negInf : FloatVal
  | finite (q : ℚ) : FloatVal
deriving DecidableEq, Repr

/-- The record-value filter of the streaming loop (apa.cpp line 213):
std isnan, isinf, or value <= 0. -/
def badValue : FloatVal → Bool
  | FloatVal.finite q => decide (q ≤ 0)
  | _ => true

/-- One 16-byte contact record of the slice stream (apa.cpp lines 186-192). -/
structure ContactRecord where
  chr1Key : ℤ
  binX : ℤ
  chr2Key : ℤ
  binY : ℤ
  value : FloatVal
deriving DecidableEq, Repr

/-- The configuration and header data of one processSliceFile run: the
resolution read from the header, the window size, the inter/intra mode, the
genomic distance bounds, and the chromosome dictionary built from the header
(std::map operator[] yields the empty string for an unknown key, so the
dictionary is modeled as a total function). -/
structure Config where
  resolution : ℤ
  window : ℤ
  isInter : Bool
  minGenomeDist : ℤ
  maxGenomeDist : ℤ
  chromosomeKeyToName : ℤ → String

/-- The per-candidate-set state of one pass: the source entries, the two
prebuilt indexes, and the accumulating matrix (apa.cpp lines 93-120). -/
structure SetState where
  entries : List BedpeEntry
  roi : RegionsOfInterest
  index : LoopIndex
  matrix : APAMatrix

/-- Initialization of one candidate set before streaming (apa.cpp lines
98-101 and 116-120): build RegionsOfInterest and LoopIndex, zero matrix of
width 2*window + 1. -/
def initSetState (cfg : Config) (entries : List BedpeEntry) : SetState :=
  { entries := entries
    roi := RegionsOfInterest.build entries cfg.resolution cfg.window cfg.isInter
    index := LoopIndex.build entries cfg.resolution
    matrix := APAMatrix.init (cfg.window * 2 + 1) }

/-- The whole mutable state of the streaming pass: the shared coverage
accumulator and one SetState per candidate set. -/
structure PassState where
  coverage : CoverageVectors
  sets : List SetState

/-- The per-set matrix contribution of one accepted record (apa.cpp lines
247-273): if the coarse filter passes, fetch the nearby loops and, for every
loop whose exact center is within window on both axes, accumulate at offset
recordBin - (loopCenter - window) per axis. -/
def setMatrixUpdate (cfg : Config) (chr1 chr2 : String) (binX binY : ℤ) (v : ℚ)
    (s : SetState) : SetState :=
  if s.roi.probablyContainsRecord chr1 chr2 binX binY then
    { s with matrix :=
        (s.index.getNearbyLoops chr1 chr2 binX).foldl (fun mat loop =>
          let loopCenterX := centerBin loop.start1 loop.end1 cfg.resolution
          let loopCenterY := centerBin loop.start2 loop.end2 cfg.resolution
          if |binX - loopCenterX| ≤ cfg.window ∧ |binY - loopCenterY| ≤ cfg.window then
            mat.add (binX - (loopCenterX - cfg.window)) (binY - (loopCenterY - cfg.window)) v
          else mat) s.matrix }
  else s

/-- The coverage update of one accepted record (apa.cpp lines 224-228): both
ends, skipping the second end for an exact diagonal self-contact. -/
def recordCoverageUpdate (chr1 chr2 : String) (binX binY : ℤ) (v : ℚ)
    (cov : CoverageVectors) : CoverageVectors :=
  let cov1 := cov.add chr1 binX v
  if chr1 ≠ chr2 ∨ binX ≠ binY then cov1.add chr2 binY v else cov1

/-- The intra-mode genomic distance filter (apa.cpp lines 230-244): skip when
|binX - binY| * resolution falls outside
[min - 3*window*resolution, max + 3*window*resolution]. -/
def intraDistOut (cfg : Config) (binX binY : ℤ) : Bool :=
  let binDistance := |binX - binY|
  let genomicDistance := binDistance * cfg.resolution
  let buffer := 3 * cfg.window * cfg.resolution
  decide (genomicDistance < cfg.minGenomeDist - buffer) ||
    decide (cfg.maxGenomeDist + buffer < genomicDistance)

/-- The body of the streaming loop of processSliceFile for one record
(apa.cpp lines 198-274), with the continue statements rendered as early
returns of the unchanged state: value filter, inter/intra filter, coverage
update, intra distance filter, then the per-set matrix updates (the for loop
over candidate sets touches each set independently and is a map). -/
def streamStep (cfg : Config) (st : PassState) (r : ContactRecord) : PassState :=
  match r.value with
  | FloatVal.nan => st
  | FloatVal.posInf => st
  | FloatVal.negInf => st
  | FloatVal.finite v =>
    if v ≤ 0 then st
    else
      let chr1 := cfg.chromosomeKeyToName r.chr1Key
      let chr2 := cfg.chromosomeKeyToName r.chr2Key
      if cfg.isInter = true ∧ chr1 = chr2 then st
      else if cfg.isInter = false ∧ chr1 ≠ chr2 then st
      else
        let cov := recordCoverageUpdate chr1 chr2 r.binX r.binY v st.coverage
        if cfg.isInter = false ∧ intraDistOut cfg r.binX r.binY = true then
          { coverage := cov, sets := st.sets }
        else
          { coverage := cov
            sets := st.sets.map (setMatrixUpdate cfg chr1 chr2 r.binX r.binY v) }

/-- The coverage component of streamStep in isolation: the same filters, then
the coverage update; the matrices never feed back into coverage. -/
def coverageStep (cfg : Config) (cov : CoverageVectors) (r : ContactRecord) :
    CoverageVectors :=
  match r.value with
  | FloatVal.nan => cov
  | FloatVal.posInf => cov
  | FloatVal.negInf => cov
  | FloatVal.finite v =>
    if v ≤ 0 then cov
    else
      let chr1 := cfg.chromosomeKeyToName r.chr1Key
      let chr2 := cfg.chromosomeKeyToName r.chr2Key
      if cfg.isInter = true ∧ chr1 = chr2 then cov
      else if cfg.isInter = false ∧ chr1 ≠ chr2 then cov
      else recordCoverageUpdate chr1 chr2 r.binX r.binY v cov

/-- The effect of one record on one candidate set in isolation: the same
filters, then the matrix contribution; a set never reads another set or the
coverage during streaming. -/
def setStep (cfg : Config) (r : ContactRecord) (s : SetState) : SetState :=
  match r.value with
  | FloatVal.nan => s
  | FloatVal.posInf => s
  | FloatVal.negInf => s
  | FloatVal.finite v =>
    if v ≤ 0 then s
    else
      let chr1 := cfg.chromosomeKeyToName r.chr1Key
      let chr2 := cfg.chromosomeKeyToName r.chr2Key
      if cfg.isInter = true ∧ chr1 = chr2 then s
      else if cfg.isInter = false ∧ chr1 ≠ chr2 then s
      else if cfg.isInter = false ∧ intraDistOut cfg r.binX r.binY = true then s
      else setMatrixUpdate cfg chr1 chr2 r.binX r.binY v s

/-- The post-pass normalization of one candidate set (apa.cpp lines 285-302):
rowSums and colSums gather window-local coverage around midBin of each axis
of every loop of the set (line 290 subtracts the window from midBin), then
both vectors are scaled by their mean of positives and the matrix is
normalized. The C++ iterates the loops through the LoopIndex buckets; every
stored loop is visited exactly once and rational addition is commutative, so
folding over the original entry list yields the same sums. -/
def finalizeSet (cfg : Config) (cov : CoverageVectors) (s : SetState) : APAMatrix :=
  let width := (cfg.window * 2 + 1).toNat
  let rowSums := s.entries.foldl (fun sums e =>
    cov.addLocalSums sums e.chrom1 (midBin e.start1 e.end1 cfg.resolution - cfg.window))
    (List.replicate width 0)
  let colSums := s.entries.foldl (fun sums e =>
    cov.addLocalSums sums e.chrom2 (midBin e.start2 e.end2 cfg.resolution - cfg.window))
    (List.replicate width 0)
  s.matrix.normalize (scaleByAverage rowSums) (scaleByAverage colSums)

/-- The whole engine after the header is read (apa.cpp lines 93-311): build
the per-set structures, stream every record once through streamStep, then
normalize each matrix against the shared coverage. -/
def runPipeline (cfg : Config) (records : List ContactRecord)
    (allEntries : List (List BedpeEntry)) : List APAMatrix :=
  let st0 : PassState :=
    { coverage := CoverageVectors.init cfg.resolution
      sets := allEntries.map (initSetState cfg) }
  let st := records.foldl (streamStep cfg) st0
  st.sets.map (finalizeSet cfg st.coverage)

/-- The bucket-placement condition of LoopIndex construction, as a Boolean
predicate over entries: the entry lands in bucket (cp, g). -/
def inBucket (res : ℤ) (cp : ChromPair) (g : ℤ) (e : BedpeEntry) : Bool :=
  decide (cp = ChromPair.mk e.chrom1 e.chrom2) &&
    decide (g = cppDiv (midBin e.start1 e.end1 res) LoopIndex.BIN_GROUP_SIZE)

/-- A small concrete configuration used to instantiate the theorems:
resolution 10, window 1, intra mode, distance range [100, 200], every
chromosome key naming chr1. -/
def sampleConfig : Config :=
  { resolution := 10
    window := 1
    isInter := false
    minGenomeDist := 100
    maxGenomeDist := 200
    chromosomeKeyToName := fun _ => "chr1" }

/-- A concrete intra-chromosomal loop anchor pair. -/
def sampleEntry : BedpeEntry := ⟨"chr1", 100, 200, "chr1", 300, 400⟩

/-- A concrete pass state with fresh coverage and no candidate sets. -/
def sampleState : PassState := ⟨CoverageVectors.init 10, []⟩

/-- The empty sparse coverage accumulator at resolution 1. -/
def emptySparse : helper.CoverageVectors := ⟨1, fun _ _ => none⟩

/-! Helper lemmas. -/

/-- Mapping a pointwise-identity function over a list is the identity. -/
theorem map_eq_self_of_eq_id {α : Type} {f : α → α} {l : List α} (h : ∀ a, f a = a) :
    l.map f = l := by
  induction l with
  | nil => rfl
  | cons a t ih => simp [h a, ih]

/-- Mapping pointwise-equal functions over a list gives equal lists. -/
theorem map_congr_fun {α β : Type} {f g : α → β} {l : List α} (h : ∀ a, f a = g a) :
    l.map f = l.map g := by
  induction l with
  | nil => rfl
  | cons a t ih => simp [h a, ih]

/-- A markStep never unsets a marked bin. -/
theorem markStep_mono {chromOf : BedpeEntry → String} {centerOf : BedpeEntry → ℤ} {win : ℤ}
    {m : String → ℤ → Bool} {e : BedpeEntry} {c : String} {b : ℤ} (h : m c b = true) :
    markStep chromOf centerOf win m e c b = true := by
  unfold markStep
  split
  · rfl
  · exact h

/-- A fold of markSteps never unsets a marked bin. -/
theorem foldl_markStep_mono {chromOf : BedpeEntry → String} {centerOf : BedpeEntry → ℤ}
    {win : ℤ} (entries : List BedpeEntry) {m : String → ℤ → Bool} {c : String} {b : ℤ}
    (h : m c b = true) :
    (entries.foldl (markStep chromOf centerOf win) m) c b = true := by
  induction entries generalizing m with
  | nil => exact h
  | cons e l ih => exact ih (markStep_mono h)

/-- After folding the markSteps of a list of entries, every in-window
nonnegative bin of a member entry is marked, whatever the start state. -/
theorem foldl_markStep_of_mem {chromOf : BedpeEntry → String} {centerOf : BedpeEntry → ℤ}
    {win : ℤ} {entries : List BedpeEntry} {e : BedpeEntry} (he : e ∈ entries)
    {m : String → ℤ → Bool} {c : String} {b : ℤ}
    (hc : c = chromOf e) (h1 : centerOf e - win ≤ b) (h2 : b ≤ centerOf e + win)
    (h3 : 0 ≤ b) :
    (entries.foldl (markStep chromOf centerOf win) m) c b = true := by
  induction entries generalizing m with
  | nil => cases he
  | cons a l ih =>
    rcases List.mem_cons.mp he with heq | hmem
    · have hstep : (markStep chromOf centerOf win m a) c b = true := by
        unfold markStep
        rw [if_pos ⟨heq ▸ hc, heq ▸ h1, heq ▸ h2, h3⟩]
      exact foldl_markStep_mono l hstep
    · exact ih hmem

/-- markBins marks every in-window nonnegative bin of every member entry. -/
theorem markBins_true_of_mem {chromOf : BedpeEntry → String} {centerOf : BedpeEntry → ℤ}
    {win : ℤ} {entries : List BedpeEntry} {e : BedpeEntry} (he : e ∈ entries)
    {c : String} {b : ℤ}
    (hc : c = chromOf e) (h1 : centerOf e - win ≤ b) (h2 : b ≤ centerOf e + win)
    (h3 : 0 ≤ b) :
    markBins chromOf centerOf win entries c b = true :=
  foldl_markStep_of_mem he hc h1 h2 h3

/-! Claim theorems. -/

/-- C1 counterexample: the claim fails for a record with a negative bin.
With one loop anchored at genomic position 0 on both axes, resolution 1 and
window 1, the loop center bin is 0 on both axes; the record at
(binX, binY) = (-1, 0) satisfies the exact window test on both axes (the
test under which the streaming loop would add it to the matrix, at in-range
offsets), yet probablyContainsRecord answers false, because bin -1 was
dropped at construction. The record value plays no role in the coarse
filter. -/
theorem probablyContains_false_negative_at_negative_bin :
    (|(-1 : ℤ) - centerBin 0 0 1| ≤ 1 ∧ |(0 : ℤ) - centerBin 0 0 1| ≤ 1) ∧
    (RegionsOfInterest.build [⟨"chr1", 0, 0, "chr1", 0, 0⟩] 1 1 false).probablyContainsRecord
      "chr1" "chr1" (-1) 0 = false := by
  decide

/-- C1 (amended): the coarse filter has no false negatives for records with
nonnegative bins. For every entry of the candidate set and every record
whose chromosomes match the entry and the inter/intra mode, if both record
bins are nonnegative and within window of the entry center bins (the exact
streaming test), then probablyContainsRecord returns true; this covers loops
whose center bin is less than window, since only negative bins are dropped
at construction. -/
theorem probablyContains_no_false_negatives
    (entries : List BedpeEntry) (res win : ℤ) (inter : Bool) (e : BedpeEntry)
    (he : e ∈ entries) (chr1 chr2 : String)
    (h1 : chr1 = e.chrom1) (h2 : chr2 = e.chrom2)
    (binX binY : ℤ) (hbx : 0 ≤ binX) (hby : 0 ≤ binY)
    (hmodeInter : inter = true → chr1 ≠ chr2)
    (hmodeIntra : inter = false → chr1 = chr2)
    (hwx : |binX - centerBin e.start1 e.end1 res| ≤ win)
    (hwy : |binY - centerBin e.start2 e.end2 res| ≤ win) :
    (RegionsOfInterest.build entries res win inter).probablyContainsRecord
      chr1 chr2 binX binY = true := by
  have hx := abs_le.mp hwx
  have hy := abs_le.mp hwy
  have hrow : markBins (fun e => e.chrom1) (fun e => centerBin e.start1 e.end1 res)
      win entries chr1 binX = true :=
    markBins_true_of_mem he h1 (by linarith [hx.1]) (by linarith [hx.2]) hbx
  have hcol : markBins (fun e => e.chrom2) (fun e => centerBin e.start2 e.end2 res)
      win entries chr2 binY = true :=
    markBins_true_of_mem he h2 (by linarith [hy.1]) (by linarith [hy.2]) hby
  cases inter with
  | true =>
    have hne := hmodeInter rfl
    simp [RegionsOfInterest.probablyContainsRecord, RegionsOfInterest.build, hne, hrow, hcol]
  | false =>
    have hne2 : ¬(chr1 ≠ chr2) := by simp [hmodeIntra rfl]
    simp [RegionsOfInterest.probablyContainsRecord, RegionsOfInterest.build, hne2, hrow, hcol]

/-- C1 witness: the amended theorem applied at a concrete input. The entry
has center bins 15 and 35; the record (16, 34) is within window 2 of both. -/
theorem probablyContains_no_false_negatives_witness :
    (sampleEntry ∈ [sampleEntry] ∧ (0 : ℤ) ≤ 16 ∧ (0 : ℤ) ≤ 34 ∧
      |(16 : ℤ) - centerBin 100 200 10| ≤ 2 ∧ |(34 : ℤ) - centerBin 300 400 10| ≤ 2) ∧
    (RegionsOfInterest.build [sampleEntry] 10 2 false).probablyContainsRecord
      "chr1" "chr1" 16 34 = true := by
  refine ⟨by decide, ?_⟩
  exact probablyContains_no_false_negatives [sampleEntry] 10 2 false sampleEntry
    (by decide) "chr1" "chr1" (by decide) (by decide) 16 34 (by decide) (by decide)
    (by decide) (by decide) (by decide) (by decide)

/-- Folding loopIndexSteps appends, to every bucket, exactly the entries that
land in that bucket, in entry order. -/
theorem foldl_loopIndexStep (res : ℤ) (entries : List BedpeEntry)
    (m : ChromPair → ℤ → List LoopInfo) (cp : ChromPair) (g : ℤ) :
    (entries.foldl (loopIndexStep res) m) cp g =
      m cp g ++ (entries.filter (inBucket res cp g)).map LoopInfo.ofBedpe := by
  induction entries generalizing m with
  | nil => simp
  | cons a l ih =>
    rw [List.foldl_cons, ih]
    by_cases h : cp = ChromPair.mk a.chrom1 a.chrom2 ∧
        g = cppDiv (midBin a.start1 a.end1 res) LoopIndex.BIN_GROUP_SIZE
    · rw [List.filter_cons_of_pos (by simp [inBucket, h.1, h.2])]
      have hstep : loopIndexStep res m a cp g = m cp g ++ [LoopInfo.ofBedpe a] := by
        unfold loopIndexStep
        rw [if_pos h]
      rw [hstep]
      simp
    · have hcond : ¬(inBucket res cp g a = true) := by
        simp only [inBucket, Bool.and_eq_true, decide_eq_true_eq]
        exact fun hc => h ⟨hc.1, hc.2⟩
      rw [List.filter_cons_of_neg hcond]
      have hstep : loopIndexStep res m a cp g = m cp g := by
        unfold loopIndexStep
        rw [if_neg h]
      rw [hstep]

/-- C2 counterexample: the bucketing the claim describes does not match the
code. With window 1 the claimed bucket size is 3, but BIN_GROUP_SIZE is the
fixed constant 1000; and a query at (binX, binY) = (0, 0) returns a loop
whose axis-1 center bin is 999 and whose axis-2 center bin is 5000000 - a
loop that a (3-bin)-bucket 3-by-3 two-dimensional neighborhood of (0, 0)
could never contain, showing the index is one-dimensional with bucket
width 1000. -/
theorem loopIndex_claim_counterexample :
    LoopIndex.BIN_GROUP_SIZE ≠ 3 * 1 ∧
    (LoopIndex.build [⟨"chr1", 999, 999, "chr1", 5000000, 5000000⟩] 1).getNearbyLoops
      "chr1" "chr1" 0 =
      [LoopInfo.ofBedpe ⟨"chr1", 999, 999, "chr1", 5000000, 5000000⟩] := by
  decide

/-- C2 (amended): LoopIndex uses the fixed bucket size 1000 (BIN_GROUP_SIZE),
independent of the window; each loop entry is placed in the one-dimensional
bucket (chromosome-pair key, midBin1/1000) where midBin1 =
((start1 + end1)/2)/resolution; and getNearbyLoops(chr1, chr2, binX) gathers
the entries of buckets binX/1000 - 1, binX/1000 and binX/1000 + 1 of that
chromosome-pair key, never consulting the second axis. -/
theorem loopIndex_bucketing (entries : List BedpeEntry) (res : ℤ) :
    LoopIndex.BIN_GROUP_SIZE = 1000 ∧
    (∀ cp g, (LoopIndex.build entries res).loops cp g =
      (entries.filter (inBucket res cp g)).map LoopInfo.ofBedpe) ∧
    (∀ chr1 chr2 binX, (LoopIndex.build entries res).getNearbyLoops chr1 chr2 binX =
      (LoopIndex.build entries res).loops ⟨chr1, chr2⟩
          (cppDiv binX LoopIndex.BIN_GROUP_SIZE - 1) ++
        (LoopIndex.build entries res).loops ⟨chr1, chr2⟩
          (cppDiv binX LoopIndex.BIN_GROUP_SIZE) ++
        (LoopIndex.build entries res).loops ⟨chr1, chr2⟩
          (cppDiv binX LoopIndex.BIN_GROUP_SIZE + 1)) := by
  refine ⟨rfl, ?_, fun _ _ _ => rfl⟩
  intro cp g
  show (entries.foldl (loopIndexStep res) (fun _ _ => [])) cp g =
    (entries.filter (inBucket res cp g)).map LoopInfo.ofBedpe
  rw [foldl_loopIndexStep]
  simp

/-- C3: a code bug. The spec states the normalization stage sums coverage
around the same center bin used during streaming, but the two stages use
different formulas: streaming (apa.cpp lines 253-260, via centerBin) uses
(start/res + end/res + 1)/2, normalization (apa.cpp lines 290-291, via
midBin) uses ((start + end)/2)/res. For the anchor start = 20000,
end = 25000 at resolution 1000 they give bins 23 and 22, so the coverage
marginals are summed one bin off the bins the matrix rows represent. -/
theorem streaming_vs_normalization_center_mismatch :
    centerBin 20000 25000 1000 = 23 ∧ midBin 20000 25000 1000 = 22 ∧
    centerBin 20000 25000 1000 ≠ midBin 20000 25000 1000 := by
  decide

/-- C4 counterexample: a positive value at a negative bin does not create an
entry. The call add(chrKey 0, bin -1, value 1) on the empty accumulator, with
value 1 > 0, returns the accumulator unchanged and the (0, -1) entry stays
absent, contradicting the unconditional created-if-absent-then-incremented
half of the claim. -/
theorem sparse_add_positive_value_negative_bin_creates_no_entry :
    helper.CoverageVectors.add emptySparse 0 (-1) 1 = Except.ok emptySparse ∧
    emptySparse.vectors 0 (-1) = none :=
  ⟨rfl, rfl⟩

/-- C4 (amended): the sparse add ignores nonpositive values only within the
bin-range contract. For value <= 0 the accumulator is unchanged, but a bin
at or beyond MAX_VECTOR_SIZE still raises the range error; for value > 0 the
entry is created-if-absent and incremented by the value only when
0 <= bin < MAX_VECTOR_SIZE, while a negative bin is silently ignored. -/
theorem sparse_add_value_contract (cv : helper.CoverageVectors) (chrKey bin : ℤ)
    (value : ℚ) :
    (value ≤ 0 → bin < helper.MAX_VECTOR_SIZE →
      cv.add chrKey bin value = Except.ok cv) ∧
    (value ≤ 0 → 0 ≤ bin → helper.MAX_VECTOR_SIZE ≤ bin →
      cv.add chrKey bin value = Except.error ("Bin index exceeds maximum allowed size")) ∧
    (0 < value → bin < 0 → cv.add chrKey bin value = Except.ok cv) ∧
    (0 < value → 0 ≤ bin → bin < helper.MAX_VECTOR_SIZE →
      cv.add chrKey bin value = Except.ok { cv with vectors := (fun k b =>
        if k = chrKey ∧ b = bin then some ((cv.vectors chrKey bin).getD 0 + value)
        else cv.vectors k b) }) := by
  unfold helper.CoverageVectors.add
  refine ⟨?_, ?_, ?_, ?_⟩
  · intro hv hb
    by_cases hneg : bin < 0
    · rw [if_pos hneg]
    · rw [if_neg hneg, if_neg (by omega), if_neg (by linarith)]
  · intro hv hb0 hbmax
    rw [if_neg (by omega), if_pos hbmax]
  · intro hv hneg
    rw [if_pos hneg]
  · intro hv hb0 hbmax
    rw [if_neg (by omega), if_neg (by omega), if_pos hv]

/-- C4 witness: the amended theorem applied at concrete inputs, covering the
ignored nonpositive value and the in-range positive value. -/
theorem sparse_add_value_contract_witness :
    ((-2 : ℚ) ≤ 0 ∧ (7 : ℤ) < helper.MAX_VECTOR_SIZE ∧
      helper.CoverageVectors.add emptySparse 1 7 (-2) = Except.ok emptySparse) ∧
    ((0 : ℚ) < 4 ∧ (0 : ℤ) ≤ 7 ∧ (7 : ℤ) < helper.MAX_VECTOR_SIZE ∧
      helper.CoverageVectors.add emptySparse 1 7 4 =
        Except.ok { emptySparse with vectors := (fun k b =>
          if k = 1 ∧ b = 7 then some ((emptySparse.vectors 1 7).getD 0 + 4)
          else emptySparse.vectors k b) }) := by
  refine ⟨⟨by decide, by decide, ?_⟩, ⟨by decide, by decide, by decide, ?_⟩⟩
  · exact (sparse_add_value_contract emptySparse 1 7 (-2)).1 (by decide) (by decide)
  · exact (sparse_add_value_contract emptySparse 1 7 4).2.2.2 (by decide) (by decide)
      (by decide)

/-- C10: the hard bin-range contract of the sparse add. A negative bin
returns with the accumulator unchanged; a bin at or beyond MAX_VECTOR_SIZE
(30,000,000) raises the range error whatever the value, leaving the
accumulator unchanged (the error branch returns no new state); and every
call outside 0 <= bin < MAX_VECTOR_SIZE with value > 0 either returns the
unchanged accumulator or that error, so only such calls modify state. -/
theorem sparse_add_bin_range_contract (cv : helper.CoverageVectors) (chrKey bin : ℤ)
    (value : ℚ) :
    (bin < 0 → cv.add chrKey bin value = Except.ok cv) ∧
    (0 ≤ bin → helper.MAX_VECTOR_SIZE ≤ bin →
      cv.add chrKey bin value = Except.error ("Bin index exceeds maximum allowed size")) ∧
    (¬(0 ≤ bin ∧ bin < helper.MAX_VECTOR_SIZE ∧ 0 < value) →
      cv.add chrKey bin value = Except.ok cv ∨
      cv.add chrKey bin value = Except.error ("Bin index exceeds maximum allowed size")) := by
  unfold helper.CoverageVectors.add
  refine ⟨?_, ?_, ?_⟩
  · intro hneg
    rw [if_pos hneg]
  · intro hb0 hbmax
    rw [if_neg (by omega), if_pos hbmax]
  · intro hout
    by_cases hneg : bin < 0
    · left
      rw [if_pos hneg]
    · by_cases hbig : helper.MAX_VECTOR_SIZE ≤ bin
      · right
        rw [if_neg hneg, if_pos hbig]
      · left
        have hvle : ¬(0 < value) := fun hv => hout ⟨by omega, by omega, hv⟩
        rw [if_neg hneg, if_neg hbig, if_neg hvle]

/-- C10 witness: the contract applied at concrete inputs, one negative bin
and one bin at the limit with a nonpositive value. -/
theorem sparse_add_bin_range_contract_witness :
    ((-1 : ℤ) < 0 ∧ helper.CoverageVectors.add emptySparse 5 (-1) 2 = Except.ok emptySparse) ∧
    ((0 : ℤ) ≤ 30000000 ∧ helper.MAX_VECTOR_SIZE ≤ 30000000 ∧
      helper.CoverageVectors.add emptySparse 5 30000000 (-3) =
        Except.error ("Bin index exceeds maximum allowed size")) := by
  refine ⟨⟨by decide, ?_⟩, ⟨by decide, by decide, ?_⟩⟩
  · exact (sparse_add_bin_range_contract emptySparse 5 (-1) 2).1 (by decide)
  · exact (sparse_add_bin_range_contract emptySparse 5 30000000 (-3)).2.1 (by decide)
      (by decide)

/-- An add never changes the width of an APAMatrix. -/
theorem APAMatrix.add_width (m : APAMatrix) (x y : ℤ) (v : ℚ) :
    (m.add x y v).width = m.width := by
  unfold APAMatrix.add
  split
  · rfl
  · rfl

/-- An in-range add increments exactly the addressed cell. -/
theorem APAMatrix.add_matrix_self (m : APAMatrix) (x y : ℤ) (v : ℚ)
    (h : 0 ≤ x ∧ x < m.width ∧ 0 ≤ y ∧ y < m.width) :
    (m.add x y v).matrix x y = m.matrix x y + v := by
  unfold APAMatrix.add
  rw [if_pos h]
  simp

/-- C5: APAMatrix.add is additive and bounds-safe. For an in-range coordinate
pair, a sequence of adds at (x, y) leaves the cell equal to its start value
plus the sum of the added values (starting from the zero-initialized matrix,
the sum of the values); for an out-of-range coordinate pair, add returns the
matrix unchanged, every cell included, and the model is a total function, so
no error is possible. -/
theorem apaMatrix_add_additive_and_bounds_safe (m0 : APAMatrix) (x y : ℤ) :
    (0 ≤ x ∧ x < m0.width ∧ 0 ≤ y ∧ y < m0.width →
      ∀ vs : List ℚ,
        (vs.foldl (fun m v => m.add x y v) m0).matrix x y = m0.matrix x y + vs.sum) ∧
    (¬(0 ≤ x ∧ x < m0.width ∧ 0 ≤ y ∧ y < m0.width) →
      ∀ v : ℚ, m0.add x y v = m0) := by
  constructor
  · intro h vs
    induction vs generalizing m0 with
    | nil => simp
    | cons v rest ih =>
      rw [List.foldl_cons]
      have hw := APAMatrix.add_width m0 x y v
      have h2 : 0 ≤ x ∧ x < (m0.add x y v).width ∧ 0 ≤ y ∧ y < (m0.add x y v).width := by
        rw [hw]
        exact h
      rw [ih (m0.add x y v) h2, APAMatrix.add_matrix_self m0 x y v h, List.sum_cons]
      ring
  · intro h v
    unfold APAMatrix.add
    rw [if_neg h]

/-- C5 witness: two in-range adds at (1, 1) of a width-3 matrix sum to 5, and
an add at the out-of-range coordinate (5, 1) is the identity. -/
theorem apaMatrix_add_additive_and_bounds_safe_witness :
    (((0 : ℤ) ≤ 1 ∧ (1 : ℤ) < (APAMatrix.init 3).width ∧ (0 : ℤ) ≤ 1 ∧
        (1 : ℤ) < (APAMatrix.init 3).width) ∧
      (([2, 3] : List ℚ).foldl (fun m v => m.add 1 1 v) (APAMatrix.init 3)).matrix 1 1 =
        (APAMatrix.init 3).matrix 1 1 + ([2, 3] : List ℚ).sum) ∧
    (¬((0 : ℤ) ≤ 5 ∧ (5 : ℤ) < (APAMatrix.init 3).width ∧ (0 : ℤ) ≤ 1 ∧
        (1 : ℤ) < (APAMatrix.init 3).width) ∧
      (APAMatrix.init 3).add 5 1 7 = APAMatrix.init 3) := by
  refine ⟨⟨by decide, ?_⟩, ⟨by decide, ?_⟩⟩
  · exact (apaMatrix_add_additive_and_bounds_safe (APAMatrix.init 3) 1 1).1 (by decide) [2, 3]
  · exact (apaMatrix_add_additive_and_bounds_safe (APAMatrix.init 3) 5 1).2 (by decide) 7

/-- C6: a record whose value is NaN, an infinity or nonpositive has no effect
at all: the streaming step returns the whole state (coverage and every
candidate-set matrix) unchanged. The step is a total function, so no error
can be raised on such a record. -/
theorem bad_value_record_no_effect (cfg : Config) (st : PassState) (r : ContactRecord)
    (h : badValue r.value = true) : streamStep cfg st r = st := by
  cases hv : r.value with
  | nan => simp [streamStep, hv]
  | posInf => simp [streamStep, hv]
  | negInf => simp [streamStep, hv]
  | finite q =>
    have hq : q ≤ 0 := by
      rw [hv] at h
      simpa [badValue] using h
    simp [streamStep, hv, hq]

/-- C6 witness: a NaN-valued record leaves the concrete state unchanged. -/
theorem bad_value_record_no_effect_witness :
    badValue FloatVal.nan = true ∧
    streamStep sampleConfig sampleState ⟨1, 5, 1, 6, FloatVal.nan⟩ = sampleState :=
  ⟨rfl, bad_value_record_no_effect sampleConfig sampleState ⟨1, 5, 1, 6, FloatVal.nan⟩ rfl⟩

/-- C8: an accepted record updates coverage once when it is an exact diagonal
self-contact (same chromosome name and same bin on both ends) and once per
end otherwise, exactly mirroring apa.cpp lines 224-228; the later matrix
stage never touches coverage. -/
theorem coverage_updated_once_on_diagonal (cfg : Config) (st : PassState)
    (r : ContactRecord) (v : ℚ) (hv : r.value = FloatVal.finite v) (hpos : 0 < v)
    (hInter : cfg.isInter = true →
      cfg.chromosomeKeyToName r.chr1Key ≠ cfg.chromosomeKeyToName r.chr2Key)
    (hIntra : cfg.isInter = false →
      cfg.chromosomeKeyToName r.chr1Key = cfg.chromosomeKeyToName r.chr2Key) :
    (streamStep cfg st r).coverage =
      if cfg.chromosomeKeyToName r.chr1Key = cfg.chromosomeKeyToName r.chr2Key ∧
          r.binX = r.binY then
        st.coverage.add (cfg.chromosomeKeyToName r.chr1Key) r.binX v
      else
        (st.coverage.add (cfg.chromosomeKeyToName r.chr1Key) r.binX v).add
          (cfg.chromosomeKeyToName r.chr2Key) r.binY v := by
  have hnpos : ¬(v ≤ 0) := not_le.mpr hpos
  cases hb : cfg.isInter with
  | true =>
    have hne := hInter hb
    simp [streamStep, recordCoverageUpdate, hv, hnpos, hb, hne,
      apply_ite PassState.coverage]
  | false =>
    have heq := hIntra hb
    by_cases hxy : r.binX = r.binY
    · simp [streamStep, recordCoverageUpdate, hv, hnpos, hb, heq, hxy,
        apply_ite PassState.coverage]
    · simp [streamStep, recordCoverageUpdate, hv, hnpos, hb, heq, hxy,
        apply_ite PassState.coverage]

/-- C8 witness: a concrete diagonal self-contact, for which the if of the
theorem conclusion selects the single coverage update. -/
theorem coverage_updated_once_on_diagonal_witness :
    ((⟨1, 5, 1, 5, FloatVal.finite 2⟩ : ContactRecord).value = FloatVal.finite 2 ∧
      (0 : ℚ) < 2) ∧
    (streamStep sampleConfig sampleState ⟨1, 5, 1, 5, FloatVal.finite 2⟩).coverage =
      if sampleConfig.chromosomeKeyToName 1 = sampleConfig.chromosomeKeyToName 1 ∧
          (5 : ℤ) = 5 then
        sampleState.coverage.add (sampleConfig.chromosomeKeyToName 1) 5 2
      else
        (sampleState.coverage.add (sampleConfig.chromosomeKeyToName 1) 5 2).add
          (sampleConfig.chromosomeKeyToName 1) 5 2 := by
  refine ⟨⟨rfl, by decide⟩, ?_⟩
  exact coverage_updated_once_on_diagonal sampleConfig sampleState
    ⟨1, 5, 1, 5, FloatVal.finite 2⟩ 2 rfl (by decide) (by decide) (fun _ => rfl)

/-- C7: in intra mode, for a record that passed the value and intra filters,
the distance-skip branch is taken exactly when the bin distance
|bin1 - bin2| lies outside the rational interval
[min/resolution - 3*window, max/resolution + 3*window], and taking it leaves
every candidate-set matrix untouched (while coverage was already updated
before the filter). -/
theorem intra_distance_filter_characterization (cfg : Config) (st : PassState)
    (r : ContactRecord) (v : ℚ) (hres : 0 < cfg.resolution)
    (hv : r.value = FloatVal.finite v) (hpos : 0 < v)
    (hmode : cfg.isInter = false)
    (hsame : cfg.chromosomeKeyToName r.chr1Key = cfg.chromosomeKeyToName r.chr2Key) :
    (intraDistOut cfg r.binX r.binY = true ↔
      (((|r.binX - r.binY| : ℤ) : ℚ) <
          (cfg.minGenomeDist : ℚ) / (cfg.resolution : ℚ) - 3 * (cfg.window : ℚ) ∨
        (cfg.maxGenomeDist : ℚ) / (cfg.resolution : ℚ) + 3 * (cfg.window : ℚ) <
          ((|r.binX - r.binY| : ℤ) : ℚ))) ∧
    (intraDistOut cfg r.binX r.binY = true → (streamStep cfg st r).sets = st.sets) := by
  have hresQ : (0 : ℚ) < (cfg.resolution : ℚ) := by exact_mod_cast hres
  constructor
  · have key1 : (|r.binX - r.binY| * cfg.resolution <
        cfg.minGenomeDist - 3 * cfg.window * cfg.resolution) ↔
        (((|r.binX - r.binY| : ℤ) : ℚ) <
          (cfg.minGenomeDist : ℚ) / (cfg.resolution : ℚ) - 3 * (cfg.window : ℚ)) := by
      rw [← @Int.cast_lt ℚ]
      push_cast
      rw [lt_sub_iff_add_lt, lt_sub_iff_add_lt, lt_div_iff hresQ]
      constructor
      · intro h
        nlinarith
      · intro h
        nlinarith
    have key2 : (cfg.maxGenomeDist + 3 * cfg.window * cfg.resolution <
        |r.binX - r.binY| * cfg.resolution) ↔
        ((cfg.maxGenomeDist : ℚ) / (cfg.resolution : ℚ) + 3 * (cfg.window : ℚ) <
          ((|r.binX - r.binY| : ℤ) : ℚ)) := by
      rw [← @Int.cast_lt ℚ]
      push_cast
      constructor
      · intro h
        have h2 : (cfg.maxGenomeDist : ℚ) / (cfg.resolution : ℚ) <
            |(r.binX : ℚ) - (r.binY : ℚ)| - 3 * (cfg.window : ℚ) := by
          rw [div_lt_iff hresQ]
          nlinarith
        linarith
      · intro h
        have h2 : (cfg.maxGenomeDist : ℚ) <
            (|(r.binX : ℚ) - (r.binY : ℚ)| - 3 * (cfg.window : ℚ)) * (cfg.resolution : ℚ) := by
          rw [← div_lt_iff hresQ]
          linarith
        nlinarith
    show (decide (|r.binX - r.binY| * cfg.resolution <
        cfg.minGenomeDist - 3 * cfg.window * cfg.resolution) ||
      decide (cfg.maxGenomeDist + 3 * cfg.window * cfg.resolution <
        |r.binX - r.binY| * cfg.resolution)) = true ↔ _
    rw [Bool.or_eq_true, decide_eq_true_eq, decide_eq_true_eq]
    exact or_congr key1 key2
  · intro hd
    simp [streamStep, hv, not_le.mpr hpos, hmode, hsame, hd]

/-- C7 witness: with resolution 10, window 1, distance range [100, 200] and a
record at bin distance 1 (genomic distance 10, below 100 - 30), the skip
branch is taken and the candidate sets are untouched. -/
theorem intra_distance_filter_characterization_witness :
    ((0 : ℤ) < sampleConfig.resolution ∧ (0 : ℚ) < 1 ∧ sampleConfig.isInter = false) ∧
    (intraDistOut sampleConfig 0 1 = true ↔
      (((|(0 : ℤ) - 1| : ℤ) : ℚ) <
          (sampleConfig.minGenomeDist : ℚ) / (sampleConfig.resolution : ℚ) -
            3 * (sampleConfig.window : ℚ) ∨
        (sampleConfig.maxGenomeDist : ℚ) / (sampleConfig.resolution : ℚ) +
            3 * (sampleConfig.window : ℚ) < ((|(0 : ℤ) - 1| : ℤ) : ℚ))) ∧
    (intraDistOut sampleConfig 0 1 = true →
      (streamStep sampleConfig sampleState ⟨1, 0, 1, 1, FloatVal.finite 1⟩).sets =
        sampleState.sets) := by
  refine ⟨⟨by decide, by decide, rfl⟩, ?_⟩
  exact intra_distance_filter_characterization sampleConfig sampleState
    ⟨1, 0, 1, 1, FloatVal.finite 1⟩ 1 (by decide) rfl (by decide) rfl rfl

/-- The streaming step decomposes componentwise: the new coverage depends
only on the old coverage and the record, and each candidate set is updated
independently of the others and of the coverage. -/
theorem streamStep_decompose (cfg : Config) (st : PassState) (r : ContactRecord) :
    streamStep cfg st r =
      ⟨coverageStep cfg st.coverage r, st.sets.map (setStep cfg r)⟩ := by
  obtain ⟨cov, sets⟩ := st
  cases hv : r.value with
  | nan =>
    have hset : ∀ s, setStep cfg r s = s := fun s => by simp [setStep, hv]
    simp [streamStep, coverageStep, hv, map_eq_self_of_eq_id hset]
  | posInf =>
    have hset : ∀ s, setStep cfg r s = s := fun s => by simp [setStep, hv]
    simp [streamStep, coverageStep, hv, map_eq_self_of_eq_id hset]
  | negInf =>
    have hset : ∀ s, setStep cfg r s = s := fun s => by simp [setStep, hv]
    simp [streamStep, coverageStep, hv, map_eq_self_of_eq_id hset]
  | finite v =>
    by_cases h0 : v ≤ 0
    · have hset : ∀ s, setStep cfg r s = s := fun s => by simp [setStep, hv, h0]
      simp [streamStep, coverageStep, hv, h0, map_eq_self_of_eq_id hset]
    · by_cases h1 : cfg.isInter = true ∧
          cfg.chromosomeKeyToName r.chr1Key = cfg.chromosomeKeyToName r.chr2Key
      · have hset : ∀ s, setStep cfg r s = s := fun s => by simp [setStep, hv, h0, h1]
        simp [streamStep, coverageStep, hv, h0, h1, map_eq_self_of_eq_id hset]
      · by_cases h2 : cfg.isInter = false ∧
            cfg.chromosomeKeyToName r.chr1Key ≠ cfg.chromosomeKeyToName r.chr2Key
        · have hset : ∀ s, setStep cfg r s = s := fun s => by simp [setStep, hv, h0, h1, h2]
          simp [streamStep, coverageStep, hv, h0, h1, h2, map_eq_self_of_eq_id hset]
        · by_cases h3 : cfg.isInter = false ∧ intraDistOut cfg r.binX r.binY = true
          · have hset : ∀ s, setStep cfg r s = s := fun s => by
              simp [setStep, hv, h0, h1, h2, h3]
            by_cases hc : cfg.chromosomeKeyToName r.chr1Key =
                cfg.chromosomeKeyToName r.chr2Key
            · simp [streamStep, coverageStep, hv, h0, h1, h2, h3, hc,
                map_eq_self_of_eq_id hset]
            · simp [streamStep, coverageStep, hv, h0, h1, h2, h3, hc,
                map_eq_self_of_eq_id hset]
          · have hset : ∀ s, setStep cfg r s =
                setMatrixUpdate cfg (cfg.chromosomeKeyToName r.chr1Key)
                  (cfg.chromosomeKeyToName r.chr2Key) r.binX r.binY v s := fun s => by
              simp [setStep, hv, h0, h1, h2, h3]
            by_cases hc : cfg.chromosomeKeyToName r.chr1Key =
                cfg.chromosomeKeyToName r.chr2Key
            · have hm : cfg.isInter = false := by
                cases hb : cfg.isInter with
                | false => rfl
                | true => exact absurd ⟨hb, hc⟩ h1
              have hd : ¬(intraDistOut cfg r.binX r.binY = true) :=
                fun hdd => h3 ⟨hm, hdd⟩
              simp [streamStep, coverageStep, hv, h0, h1, h2, h3, hc, hm, hd,
                map_congr_fun hset]
            · have hm : cfg.isInter = true := by
                cases hb : cfg.isInter with
                | true => rfl
                | false => exact absurd ⟨hb, hc⟩ h2
              simp [streamStep, coverageStep, hv, h0, h1, h2, h3, hc, hm,
                map_congr_fun hset]

/-- Folding the streaming step over a record list decomposes componentwise:
the final coverage is the fold of the coverage steps, and each candidate set
is the fold of its own set steps. -/
theorem foldl_streamStep_decompose (cfg : Config) (records : List ContactRecord)
    (st : PassState) :
    records.foldl (streamStep cfg) st =
      ⟨records.foldl (coverageStep cfg) st.coverage,
       st.sets.map (fun s => records.foldl (fun t rr => setStep cfg rr t) s)⟩ := by
  induction records generalizing st with
  | nil =>
    obtain ⟨cov, sets⟩ := st
    simp
  | cons r rs ih =>
    rw [List.foldl_cons, streamStep_decompose, ih]
    simp [List.map_map, Function.comp]

/-- C9: candidate sets are processed independently. Running the pipeline on
two candidate sets against one record stream yields exactly the two final
normalized matrices that running each set alone against the same stream and
configuration yields: the shared coverage depends only on the stream, and
each set folds its own steps and normalizes against that coverage. -/
theorem two_sets_together_equal_each_alone (cfg : Config)
    (records : List ContactRecord) (s1 s2 : List BedpeEntry) :
    runPipeline cfg records [s1, s2] =
      runPipeline cfg records [s1] ++ runPipeline cfg records [s2] := by
  simp [runPipeline, foldl_streamStep_decompose]

end APA
